import Mathlib

set_option autoImplicit false

namespace NetworkScanner

/-!
Shallow embedding of `src/network-scanner.ts` (class `NetworkScanner`).

Strings are processed through their character lists; every definition is an
executable total function.  JavaScript 32-bit integers are represented by
their bit pattern as a `Nat` below `2 ^ 32`, with a separate signed reading
(`sInt`) where the code relies on signed comparison.  External effects
(interface enumeration, the `arp -a` process, lease file, UPnP fetch, mDNS,
NetBIOS and DNS lookups) are supplied as explicit environment values, since
the code only consumes their textual results.
-/

/-! ## Character helpers for the JavaScript string operations -/

/-- JS `\s` (ASCII range): space, tab, LF, VT, FF, CR. -/
def isWsChar (c : Char) : Bool :=
  c.toNat = 32 || c.toNat = 9 || c.toNat = 10 || c.toNat = 11 || c.toNat = 12 || c.toNat = 13

/-- JS `\d`. -/
def isDigitChar (c : Char) : Bool :=
  48 ≤ c.toNat && c.toNat ≤ 57

/-- The regex class `[0-9a-fA-F]`. -/
def isHexChar (c : Char) : Bool :=
  (48 ≤ c.toNat && c.toNat ≤ 57) || (97 ≤ c.toNat && c.toNat ≤ 102)
    || (65 ≤ c.toNat && c.toNat ≤ 70)

/-- Uppercase hex digit `[0-9A-F]`. -/
def isUpperHexChar (c : Char) : Bool :=
  (48 ≤ c.toNat && c.toNat ≤ 57) || (65 ≤ c.toNat && c.toNat ≤ 70)

/-- The regex class `[0-9a-fA-F:-]` of the Windows ARP pattern. -/
def isMacCharWin (c : Char) : Bool :=
  isHexChar c || c = ':' || c = '-'

/-- The regex class `[0-9a-fA-F:]` of the Unix ARP pattern. -/
def isMacCharUnix (c : Char) : Bool :=
  isHexChar c || c = ':'

/-- JS `toUpperCase` on one ASCII character. -/
def jsToUpperChar (c : Char) : Char :=
  if 97 ≤ c.toNat ∧ c.toNat ≤ 122 then Char.ofNat (c.toNat - 32) else c

/-- JS `s.toUpperCase()` (inputs here are ASCII). -/
def jsToUpper (s : String) : String :=
  String.mk (s.data.map jsToUpperChar)

/-- JS replace of every dash by a colon (the `replace` call with the global
    dash regex). -/
def replaceDashColon (s : String) : String :=
  String.mk (s.data.map (fun c => if c = '-' then ':' else c))

/-- JS `s.replace(/:/g, "")`. -/
def stripColons (s : String) : String :=
  String.mk (s.data.filter (fun c => c != ':'))

/-- Split a character list at every occurrence of `sep` (JS `String.split`). -/
def splitOnChar (sep : Char) : List Char → List (List Char)
  | [] => [[]]
  | c :: rest =>
    if c = sep then
      [] :: splitOnChar sep rest
    else
      match splitOnChar sep rest with
      | l :: ls => (c :: l) :: ls
      | [] => [[c]]

/-- JS `parseInt` restricted to the shapes that occur here: skips leading
    whitespace and reads a maximal run of decimal digits (`NaN`, i.e. no
    digits, is treated as the `0` it becomes under `ToInt32`).  Exact-float
    rounding above `2 ^ 53` is not modelled; all claims use small octets. -/
def jsParseIntNat (s : List Char) : Nat :=
  ((s.dropWhile isWsChar).takeWhile isDigitChar).foldl
    (fun a c => a * 10 + (c.toNat - 48)) 0

/-! ## JS `Map` model (insertion order, `set` replaces in place) -/

/-- JS `Map.set`: replaces the value at an existing key in place, otherwise
    appends the new entry. -/
def mapSet : List (String × String) → String → String → List (String × String)
  | [], k, v => [(k, v)]
  | p :: rest, k, v => if p.1 = k then (k, v) :: rest else p :: mapSet rest k v

/-- JS `Map.get` (as `Option`). -/
def mapGet : List (String × String) → String → Option String
  | [], _ => none
  | p :: rest, k => if p.1 = k then some p.2 else mapGet rest k

/-! ## The two ARP regular expressions as line matchers

`parseArpOutput` runs
`/^\s*(\d+\.\d+\.\d+\.\d+)\s+([0-9a-fA-F:-]{17})/gm` and
`/^(\d+\.\d+\.\d+\.\d+)\s+ether\s+([0-9a-fA-F:]{17})/gm` with `exec` loops.
Because both patterns are anchored at a line start (`^` under `m`) and each
line can host at most one match, the `exec` loop over the whole text is
modelled as a scan over the `\n`-split lines.  Greedy `\d+` never needs to
backtrack here (the follow-up characters `.` and `\s` are not digits). -/

/-- Match `\d+` at the front; returns the digits and the remainder. -/
def matchNum (l : List Char) : Option (List Char × List Char) :=
  let ds := l.takeWhile isDigitChar
  if ds.isEmpty then none else some (ds, l.dropWhile isDigitChar)

/-- Match one literal character at the front. -/
def matchChar (c : Char) : List Char → Option (List Char)
  | x :: rest => if x = c then some rest else none
  | [] => none

/-- Match a literal character sequence at the front. -/
def matchLit : List Char → List Char → Option (List Char)
  | [], l => some l
  | c :: cs, l => (matchChar c l).bind (matchLit cs)

/-- Match `\s+` at the front. -/
def matchSpaces1 : List Char → Option (List Char)
  | x :: rest => if isWsChar x then some (rest.dropWhile isWsChar) else none
  | [] => none

/-- Match `\d+\.\d+\.\d+\.\d+`; returns the matched text and the remainder. -/
def matchIpv4 (l : List Char) : Option (List Char × List Char) :=
  match matchNum l with
  | none => none
  | some (d1, r1) =>
    match matchChar '.' r1 with
    | none => none
    | some r2 =>
      match matchNum r2 with
      | none => none
      | some (d2, r3) =>
        match matchChar '.' r3 with
        | none => none
        | some r4 =>
          match matchNum r4 with
          | none => none
          | some (d3, r5) =>
            match matchChar '.' r5 with
            | none => none
            | some r6 =>
              match matchNum r6 with
              | none => none
              | some (d4, r7) =>
                some (d1 ++ '.' :: d2 ++ '.' :: d3 ++ '.' :: d4, r7)

/-- Match exactly 17 characters of a class at the front (trailing text is
    unconstrained, as in the regexes). -/
def match17 (p : Char → Bool) (l : List Char) : Option (List Char) :=
  let tok := l.take 17
  if tok.length = 17 ∧ tok.all p then some tok else none

/-- One line of the Windows pattern
    `^\s*(\d+\.\d+\.\d+\.\d+)\s+([0-9a-fA-F:-]{17})`. -/
def winLine (line : List Char) : Option (String × String) :=
  match matchIpv4 (line.dropWhile isWsChar) with
  | none => none
  | some (ip, r1) =>
    match matchSpaces1 r1 with
    | none => none
    | some r2 =>
      match match17 isMacCharWin r2 with
      | none => none
      | some tok => some (String.mk ip, String.mk tok)

/-- One line of the Unix pattern
    `^(\d+\.\d+\.\d+\.\d+)\s+ether\s+([0-9a-fA-F:]{17})`. -/
def unixLine (line : List Char) : Option (String × String) :=
  match matchIpv4 line with
  | none => none
  | some (ip, r1) =>
    match matchSpaces1 r1 with
    | none => none
    | some r2 =>
      match matchLit ['e', 't', 'h', 'e', 'r'] r2 with
      | none => none
      | some r3 =>
        match matchSpaces1 r3 with
        | none => none
        | some r4 =>
          match match17 isMacCharUnix r4 with
          | none => none
          | some tok => some (String.mk ip, String.mk tok)

/-- Normalization applied to a Windows match: dashes become colons, then
    `toUpperCase()`. -/
def normWin (tok : String) : String := jsToUpper (replaceDashColon tok)

/-- Normalization applied to a Unix match: `toUpperCase()`. -/
def normUnix (tok : String) : String := jsToUpper tok

/-- The loop body of one `exec` pass: insert a normalized, non-all-zero
    entry into the map (`arpMap.set(ip, mac)` guarded by the zero check). -/
def passStep (f : List Char → Option (String × String)) (norm : String → String)
    (acc : List (String × String)) (line : List Char) : List (String × String) :=
  match f line with
  | some (ip, tok) =>
    let mac := norm tok
    if mac = "00:00:00:00:00:00" then acc else mapSet acc ip mac
  | none => acc

/-- One `exec` pass of a pattern over all lines. -/
def runPass (f : List Char → Option (String × String)) (norm : String → String)
    (lines : List (List Char)) (m : List (String × String)) : List (String × String) :=
  lines.foldl (passStep f norm) m

/-- `parseArpOutput` (network-scanner.ts lines 252-279): the Windows pass runs
    first, then the Unix pass over the same text, merging into one map. -/
def parseArpOutput (output : String) : List (String × String) :=
  let lines := splitOnChar '\n' output.data
  runPass unixLine normUnix lines (runPass winLine normWin lines [])

/-- The normalized value a pattern writes for key `k` on one line, if any. -/
def lineProduces (f : List Char → Option (String × String)) (norm : String → String)
    (k : String) (line : List Char) : Option String :=
  match f line with
  | some (ip, tok) =>
    if ip = k ∧ norm tok ≠ "00:00:00:00:00:00" then some (norm tok) else none
  | none => none

/-- The normalized values a pattern writes for key `k`, in line order. -/
def producedBy (f : List Char → Option (String × String)) (norm : String → String)
    (k : String) : List (List Char) → List String
  | [] => []
  | line :: rest =>
    match lineProduces f norm k line with
    | some v => v :: producedBy f norm k rest
    | none => producedBy f norm k rest

/-- The values the Windows pass writes for key `k` across the text, in line
    order. -/
def winProduced (text k : String) : List String :=
  producedBy winLine normWin k (splitOnChar '\n' text.data)

/-- The values the Unix pass writes for key `k` across the text. -/
def unixProduced (text k : String) : List String :=
  producedBy unixLine normUnix k (splitOnChar '\n' text.data)

/-! ## 32-bit integer helpers -/

/-- Unsigned bit pattern of a JS signed 32-bit value. -/
def u32 (n : Nat) : Nat := n % 2 ^ 32

/-- Signed reading of a 32-bit bit pattern (JS `ToInt32`). -/
def sInt (n : Nat) : Int :=
  if n % 2 ^ 32 < 2 ^ 31 then ((n % 2 ^ 32 : Nat) : Int)
  else ((n % 2 ^ 32 : Nat) : Int) - 2 ^ 32

/-- Bit pattern of JS `~n` followed by `>>> 0` (bitwise complement). -/
def notU32 (n : Nat) : Nat := 2 ^ 32 - 1 - n % 2 ^ 32

/-- `ipToNumber` (lines 313-318): fold of `(acc << 8) | parseInt(octet)` over
    the dot-separated pieces; each step is kept as the 32-bit bit pattern. -/
def ipToNumber (ip : String) : Nat :=
  (splitOnChar '.' ip.data).foldl
    (fun acc oct => Nat.lor (u32 (acc <<< 8)) (u32 (jsParseIntNat oct))) 0

/-! ## Subnet filtering -/

/-- `filterSubnetDevices` (lines 288-306): keeps the ARP entries whose IP is
    in the interface subnet, in map insertion order. -/
def filterSubnetDevices (arpCache : List (String × String))
    (networkIp netmask : String) : List (String × String) :=
  let network := ipToNumber networkIp
  let mask := ipToNumber netmask
  arpCache.filter (fun p => Nat.land (ipToNumber p.1) mask = Nat.land network mask)

/-! ## Vendor lookup -/

/-- JS `a || b` on strings: the empty string is the only falsy string. -/
def jsOrS (a b : String) : String := if a = "" then b else a

/-- The OUI key of a hardware address as `enrichDevices` computes it
    (lines 343-344): strip colons, uppercase, take the first 6 characters. -/
def ouiOf (mac : String) : String :=
  String.mk ((jsToUpper (stripColons mac)).data.take 6)

/-- The vendor lookup of `enrichDevices` (line 345):
    `this.ouiDatabase?.[oui] || "Unknown"`. -/
def vendorFor (db : List (String × String)) (mac : String) : String :=
  match mapGet db (ouiOf mac) with
  | some v => jsOrS v "Unknown"
  | none => "Unknown"

/-! ## Name resolution chain

Each resolver's external observation is a field of `NameEnv`; `none` covers
both an I/O failure (caught) and a missing capture, matching the code's
`catch` plus optional-chaining behaviour. -/

structure NameEnv where
  /-- Capture of the lease-block hostname regex in `getDeviceName`. -/
  lease : Option String
  /-- Capture of `friendlyName` when the UPnP fetch succeeds with an ok status. -/
  upnp : Option String
  /-- `avahi-resolve-address` stdout split on tab, field 1, trimmed. -/
  mdns : Option String
  /-- Capture of the `<00>  UNIQUE` pattern from `nbtstat` output. -/
  netbios : Option String
  /-- `records[0]` of the PTR lookup. -/
  dns : Option String

/-- JS truthiness on an optional capture: `some s` with `s` non-empty. -/
def firstTruthy (o : Option String) (k : String) : String :=
  match o with
  | some s => if s = "" then k else s
  | none => k

/-- `getDeviceName` (lines 449-475): lease-file hostname, then UPnP friendly
    name, else `"Unknown"`. -/
def getDeviceName (e : NameEnv) : String :=
  firstTruthy e.lease (firstTruthy e.upnp "Unknown")

/-- `resolveMdnsName` (lines 402-418). -/
def resolveMdnsName (e : NameEnv) : String :=
  firstTruthy e.mdns "Unknown"

/-- `resolveNetbiosName` (lines 425-442). -/
def resolveNetbiosName (e : NameEnv) : String :=
  firstTruthy e.netbios "Unknown"

/-- Remove one trailing dot (the `replace` with an end-anchored dot regex). -/
def stripTrailingDot (s : String) : String :=
  if s.data.getLast? = some '.' then String.mk s.data.dropLast else s

/-- `resolveDnsName` (lines 382-395): first PTR record, trailing dot
    stripped, empty/absent degrading to `"Unknown"`. -/
def resolveDnsName (e : NameEnv) : String :=
  match e.dns with
  | some r => jsOrS (stripTrailingDot r) "Unknown"
  | none => "Unknown"

/-- The inline chain of `enrichDevices` (lines 337-340):
    `getDeviceName(ip) || resolveMdnsName(ip) || resolveNetbiosName(ip) ||
    resolveDnsName(ip)` with JS string truthiness. -/
def resolveNameChain (e : NameEnv) : String :=
  jsOrS (getDeviceName e)
    (jsOrS (resolveMdnsName e)
      (jsOrS (resolveNetbiosName e) (resolveDnsName e)))

/-! ## Device enrichment -/

structure NetworkDevice where
  ip : String
  mac : String
  interface : String
  vendor : String
  name : String
deriving DecidableEq, Repr

/-- Greedy split into chunks of one or two characters (the global
    dot-dot regex of `formatMac`). -/
def chunk2 : List Char → List (List Char)
  | [] => []
  | [a] => [[a]]
  | a :: b :: rest => [a, b] :: chunk2 rest

/-- Join character groups with colons. -/
def joinColon : List (List Char) → List Char
  | [] => []
  | [g] => g
  | g :: rest => g ++ ':' :: joinColon rest

/-- `formatMac` (lines 373-375): regroup into pairs joined by colons (for the
    empty string the JS `|| mac` fallback also yields the empty string). -/
def formatMac (mac : String) : String :=
  String.mk (joinColon (chunk2 mac.data))

/-- Two-state collapse of whitespace runs into single spaces (the `replace`
    of one-or-more whitespace by a single space in `enrichDevices`). -/
def collapseWsAux : Bool → List Char → List Char
  | _, [] => []
  | prevWs, c :: rest =>
    if isWsChar c then
      if prevWs then collapseWsAux true rest else ' ' :: collapseWsAux true rest
    else c :: collapseWsAux false rest

/-- `name.replace` of whitespace runs by single spaces, then `.trim()`. -/
def normSpace (s : String) : String :=
  String.mk (((collapseWsAux false s.data).dropWhile isWsChar).reverse.dropWhile
    isWsChar).reverse

/-- The loop body of `enrichDevices` (lines 332-362) for one `{ip, mac}`
    entry. -/
def enrichOne (db : List (String × String)) (env : String → NameEnv)
    (interfaceName : String) (p : String × String) : NetworkDevice :=
  let name := resolveNameChain (env p.1)
  let cleanMac := jsToUpper (stripColons p.2)
  { ip := p.1
    mac := formatMac cleanMac
    interface := interfaceName
    vendor := vendorFor db p.2
    name := normSpace name }

/-- `enrichDevices` (lines 326-366): sequential enrichment in list order. -/
def enrichDevices (db : List (String × String)) (env : String → NameEnv)
    (devices : List (String × String)) (interfaceName : String) :
    List NetworkDevice :=
  devices.map (enrichOne db env interfaceName)

/-! ## Address range generator -/

/-- Decimal digits of a natural number, by structural recursion on a fuel
    bound (`n + 1` steps always suffice, one per digit) so that the kernel
    can evaluate it. -/
def natDigitsGo : Nat → Nat → List Char
  | _, 0 => []
  | n, fuel + 1 =>
    if n < 10 then [Char.ofNat (48 + n)]
    else natDigitsGo (n / 10) fuel ++ [Char.ofNat (48 + n % 10)]

/-- Decimal digits of a natural number. -/
def natDigits (n : Nat) : List Char := natDigitsGo n (n + 1)

/-- The octet join of `calculateSubnet`:
    `[(c >>> 24) & 0xff, (c >>> 16) & 0xff, (c >>> 8) & 0xff, c & 0xff].join(".")`
    applied to the bit pattern `n`. -/
def u32ToIp (n : Nat) : String :=
  String.mk (natDigits (Nat.land (n >>> 24) 255) ++ '.'
    :: natDigits (Nat.land (n >>> 16) 255) ++ '.'
    :: natDigits (Nat.land (n >>> 8) 255) ++ '.'
    :: natDigits (Nat.land n 255))

/-- `calculateSubnet` (lines 155-178).  `network` and `broadcast` are kept as
    bit patterns; the loop `for (current = network + 1; current < broadcast;
    current++)` compares them as signed 32-bit values, hence `sInt`.  The
    generator is materialized as the list of its yields. -/
def calculateSubnet (ip netmask : String) : List String :=
  let network := Nat.land (ipToNumber ip) (ipToNumber netmask)
  let broadcast := Nat.lor network (notU32 (ipToNumber netmask))
  let count := (sInt broadcast - sInt network - 1).toNat
  (List.range count).map
    (fun (i : Nat) => u32ToIp (((sInt network + 1 + (i : Int)) % (2 ^ 32 : Int)).toNat))

/-! ## Prober -/

/-- The settled state of one ping promise: resolved, or rejected and caught
    by the `.catch` handler. -/
inductive ProbeOutcome where
  | ok : ProbeOutcome
  | failed : ProbeOutcome
deriving DecidableEq, Repr

/-- The batch schedule of `pingSubnet` (lines 186-229): the loop pushes
    candidates and awaits `Promise.all` exactly when the batch reaches
    `BATCH_SIZE = 50`, plus one final partial batch. -/
def toBatches {α : Type} : List α → List (List α)
  | [] => []
  | x :: rest => (x :: rest).take 50 :: toBatches ((x :: rest).drop 50)
termination_by l => l.length
decreasing_by simp [List.length_drop]; omega

/-- `pingSubnet` as its settled event trace: windows in admission order, each
    probe's outcome recorded (failures swallowed), window `N + 1` only after
    every outcome of window `N`. -/
def pingSubnet (probe : String → ProbeOutcome) (ip netmask : String) :
    List (List ProbeOutcome) :=
  (toBatches (calculateSubnet ip netmask)).map (fun w => w.map probe)

/-! ## Scan orchestrator -/

structure Iface where
  name : String
  address : String
  netmask : String
  family : String
deriving DecidableEq, Repr

structure ScanOptions where
  interfaceFilter : Option String
  pingTimeout : Option Nat
deriving DecidableEq, Repr

/-- External world of one `scan` call.  The OUI table is the already-loaded
    mapping (load-on-first-use is outside the pipeline); `arpOutput = none`
    models the `arp` command failing to launch (caught, empty map);
    `arp -a` is deterministic within the scan, so the reader returns the same
    text on each per-interface invocation. -/
structure ScanEnv where
  ouiDb : List (String × String)
  interfaces : List Iface
  arpOutput : Option String
  nameEnv : String → NameEnv

/-- `getArpCache` (lines 235-245): parse the output, or an empty map when the
    command cannot be run. -/
def getArpCache (env : ScanEnv) : List (String × String) :=
  match env.arpOutput with
  | some out => parseArpOutput out
  | none => []

/-- One iteration of the interface loop of `scan` (lines 59-123).  The ping
    sweep contributes only the side effect on the OS neighbor cache, which is
    already folded into `arpOutput`. -/
def scanIface (env : ScanEnv) (opts : ScanOptions) (i : Iface) :
    List NetworkDevice :=
  if (match opts.interfaceFilter with
      | some f => f != "" && i.name != f
      | none => false) then []
  else if i.family != "IPv4" then []
  else
    let arpCache := getArpCache env
    if arpCache.length = 0 then []
    else
      let subnetDevices := filterSubnetDevices arpCache i.address i.netmask
      if subnetDevices.length = 0 then []
      else enrichDevices env.ouiDb env.nameEnv subnetDevices i.name

/-- `scan` (lines 43-129): per-interface results concatenated in enumeration
    order. -/
def scan (env : ScanEnv) (opts : ScanOptions) : List NetworkDevice :=
  (env.interfaces.map (scanIface env opts)).flatten

/-! ## Claim-side definitions

These follow the words of the specification (not the code) and exist solely
to be compared against the code-derived definitions above. -/

/-- Modelled from the spec (§4.7): first success wins, where success is a
    non-empty result different from `"Unknown"`; every failure falls through
    to the next method; exhaustion yields `"Unknown"`. -/
def specFirstSuccess : List (Option String) → String
  | [] => "Unknown"
  | none :: rest => specFirstSuccess rest
  | some s :: rest => if s != "" && s != "Unknown" then s else specFirstSuccess rest

/-- Modelled from the spec (§4.7): the chain lease-file, UPnP, mDNS, NetBIOS,
    reverse DNS (PTR result with the trailing dot stripped). -/
def specResolveName (e : NameEnv) : String :=
  specFirstSuccess [e.lease, e.upnp, e.mdns, e.netbios, e.dns.map stripTrailingDot]

/-- Modelled from the spec (§4.6): the first 6 hex digits of the hardware
    address stripped of separators (colons and dashes) and uppercased, looked
    up in the table; a miss yields `"Unknown"`. -/
def specVendorResolve (db : List (String × String)) (mac : String) : String :=
  let key := String.mk
    (((mac.data.filter (fun c => !(c = ':' || c = '-'))).map jsToUpperChar).take 6)
  match mapGet db key with
  | some v => v
  | none => "Unknown"

/-- The claim's network value `ip & mask` (as the unsigned 32-bit pattern). -/
def specNetwork (ip mask : String) : Nat :=
  Nat.land (ipToNumber ip) (ipToNumber mask)

/-- The claim's broadcast value `network | ~mask`. -/
def specBroadcast (ip mask : String) : Nat :=
  Nat.lor (specNetwork ip mask) (notU32 (ipToNumber mask))

/-! ## Shape predicates on hardware-address strings -/

/-- A separator accepted by the Windows pattern. -/
def isSepChar (c : Char) : Bool := c = ':' || c = '-'

/-- Hex pairs joined by single colons: the group structure of a well-formed
    colon-separated hardware address. -/
def wellFormedMacL : List Char → Bool
  | [a, b] => isUpperHexChar a && isUpperHexChar b
  | a :: b :: s :: rest =>
    isUpperHexChar a && isUpperHexChar b && s = ':' && wellFormedMacL rest
  | _ => false

/-- A well-formed 6-octet hardware address: 17 characters, uppercase hex
    pairs joined by colons. -/
def wellFormedMac (s : String) : Bool :=
  s.data.length = 17 && wellFormedMacL s.data

/-- Hex pairs joined by single `:` or `-` separators. -/
def isStdTokL : List Char → Bool
  | [a, b] => isHexChar a && isHexChar b
  | a :: b :: s :: rest =>
    isHexChar a && isHexChar b && isSepChar s && isStdTokL rest
  | _ => false

/-- A standard matched token: six hex pairs joined by single `:` or `-`
    separators (the shape every real ARP table prints). -/
def isStdTok (s : String) : Bool :=
  s.data.length = 17 && isStdTokL s.data

/-- Every hardware-address token either pattern matches in one line is
    standard. -/
def lineToksStd (line : List Char) : Bool :=
  (match winLine line with
   | some (_, tok) => isStdTok tok
   | none => true) &&
  (match unixLine line with
   | some (_, tok) => isStdTok tok
   | none => true)

/-- Every hardware-address token matched anywhere in a raw ARP text is
    standard. -/
def allToksStd (text : String) : Bool :=
  (splitOnChar '\n' text.data).all lineToksStd

/-! ## Concrete scenarios used by the counterexamples and witnesses -/

/-- Environment in which every name-resolution source fails. -/
def noNames : String → NameEnv := fun _ => ⟨none, none, none, none, none⟩

def ifaceEth0 : Iface := ⟨"eth0", "1.2.3.1", "255.255.255.0", "IPv4"⟩

/-- One IPv4 interface and one ordinary in-subnet neighbor entry. -/
def envPlain : ScanEnv :=
  ⟨[], [ifaceEth0], some "1.2.3.4 ether aa:bb:cc:dd:ee:ff", noNames⟩

/-- Same interface, but the matched 17-character token is twelve zeros
    followed by five colons, which normalizes to a non-zero string yet
    formats to the all-zero address. -/
def envZeroTok : ScanEnv :=
  ⟨[], [ifaceEth0], some "1.2.3.4 000000000000:::::", noNames⟩

/-- The environment in which the `arp` command cannot be launched. -/
def envArpFail : ScanEnv := ⟨[], [ifaceEth0], none, noNames⟩

/-- The device envPlain's scan finds. -/
def devPlain : NetworkDevice :=
  ⟨"1.2.3.4", "AA:BB:CC:DD:EE:FF", "eth0", "Unknown", "Unknown"⟩

/-- The C1 scenario: lease file, UPnP, mDNS and NetBIOS all fail; reverse
    DNS would answer `host.example.com.`. -/
def envC1 : NameEnv := ⟨none, none, none, none, some "host.example.com."⟩

/-! ## Helper lemmas: bitwise order facts -/

theorem le_or_self (a : Nat) : ∀ b : Nat, a ≤ a ||| b := by
  induction a using Nat.strong_induction_on with
  | _ a ih =>
    intro b
    match a with
    | 0 => simp
    | a0 + 1 =>
      show a0 + 1 ≤ (a0 + 1) ||| b
      have hpos : 0 < a0 + 1 := Nat.succ_pos a0
      have ihh : (a0 + 1) / 2 ≤ (a0 + 1) / 2 ||| b / 2 :=
        ih ((a0 + 1) / 2) (Nat.div_lt_self hpos (by omega)) (b / 2)
      have hd : ((a0 + 1) ||| b) / 2 = (a0 + 1) / 2 ||| b / 2 := Nat.or_div_two
      have hmod : (a0 + 1) % 2 ≤ ((a0 + 1) ||| b) % 2 := by
        rcases Nat.mod_two_eq_zero_or_one (a0 + 1) with h | h
        · omega
        · have : ((a0 + 1) ||| b) % 2 = 1 := Nat.or_mod_two_eq_one.mpr (Or.inl h)
          omega
      have e1 := Nat.div_add_mod (a0 + 1) 2
      have e2 := Nat.div_add_mod ((a0 + 1) ||| b) 2
      omega

theorem or_le_add (a : Nat) : ∀ b : Nat, a ||| b ≤ a + b := by
  induction a using Nat.strong_induction_on with
  | _ a ih =>
    intro b
    match a with
    | 0 => simp
    | a0 + 1 =>
      show (a0 + 1) ||| b ≤ (a0 + 1) + b
      have hpos : 0 < a0 + 1 := Nat.succ_pos a0
      have ihh : (a0 + 1) / 2 ||| b / 2 ≤ (a0 + 1) / 2 + b / 2 :=
        ih ((a0 + 1) / 2) (Nat.div_lt_self hpos (by omega)) (b / 2)
      have hd : ((a0 + 1) ||| b) / 2 = (a0 + 1) / 2 ||| b / 2 := Nat.or_div_two
      have hmod : ((a0 + 1) ||| b) % 2 ≤ (a0 + 1) % 2 + b % 2 := by
        rcases Nat.mod_two_eq_zero_or_one ((a0 + 1) ||| b) with h | h
        · omega
        · rcases Nat.or_mod_two_eq_one.mp h with h1 | h1 <;> omega
      have e1 := Nat.div_add_mod (a0 + 1) 2
      have e2 := Nat.div_add_mod b 2
      have e3 := Nat.div_add_mod ((a0 + 1) ||| b) 2
      omega

/-! ## Helper lemmas: characters -/

theorem toNat_ofNat_valid {n : Nat} (h : n < 55296) : (Char.ofNat n).toNat = n := by
  rw [Char.ofNat, dif_pos (Or.inl h)]
  rfl

theorem jsToUpperChar_hex {c : Char} (h : isHexChar c = true) :
    isUpperHexChar (jsToUpperChar c) = true := by
  unfold isHexChar at h
  unfold jsToUpperChar isUpperHexChar
  simp only [Bool.or_eq_true, Bool.and_eq_true, decide_eq_true_eq] at h ⊢
  by_cases hl : 97 ≤ c.toNat ∧ c.toNat ≤ 122
  · rw [if_pos hl, toNat_ofNat_valid (by omega)]
    omega
  · rw [if_neg hl]
    omega

theorem jsToUpperChar_low {c : Char} (h : c.toNat < 97) : jsToUpperChar c = c := by
  unfold jsToUpperChar
  rw [if_neg]
  omega

theorem upperHex_facts {c : Char} (h : isUpperHexChar c = true) :
    jsToUpperChar c = c ∧ (c != ':') = true := by
  unfold isUpperHexChar at h
  simp only [Bool.or_eq_true, Bool.and_eq_true, decide_eq_true_eq] at h
  refine ⟨jsToUpperChar_low (by omega), ?_⟩
  simp only [bne_iff_ne, ne_eq]
  intro he
  subst he
  simp at h

theorem hex_ne_dash {c : Char} (h : isHexChar c = true) :
    (if c = '-' then ':' else c) = c := by
  rw [if_neg]
  intro he
  subst he
  exact absurd h (by decide)

theorem sep_normalizes {c : Char} (h : isSepChar c = true) :
    jsToUpperChar (if c = '-' then ':' else c) = ':' := by
  unfold isSepChar at h
  simp only [Bool.or_eq_true, decide_eq_true_eq] at h
  rcases h with h | h <;> subst h <;> decide

theorem sep_unix_colon {c : Char} (h1 : isSepChar c = true)
    (h2 : isMacCharUnix c = true) : c = ':' := by
  unfold isSepChar at h1
  simp only [Bool.or_eq_true, decide_eq_true_eq] at h1
  rcases h1 with h | h
  · exact h
  · subst h
    exact absurd h2 (by decide)

/-! ## Helper lemmas: name chain -/

theorem firstTruthy_ne_empty {o : Option String} {k : String} (hk : k ≠ "") :
    firstTruthy o k ≠ "" := by
  cases o with
  | none => exact hk
  | some s =>
    show (if s = "" then k else s) ≠ ""
    by_cases hs : s = ""
    · rw [if_pos hs]; exact hk
    · rw [if_neg hs]; exact hs

/-- Because every resolver returns at least `"Unknown"` (a truthy string),
    the JS or-chain always stops at its first step. -/
theorem resolveNameChain_eq_getDeviceName (e : NameEnv) :
    resolveNameChain e = getDeviceName e := by
  unfold resolveNameChain jsOrS
  rw [if_neg]
  exact firstTruthy_ne_empty (firstTruthy_ne_empty (by decide))

/-! ## Helper lemmas: the map model -/

theorem mem_mapSet {m : List (String × String)} {k v : String} {p : String × String}
    (h : p ∈ mapSet m k v) : p ∈ m ∨ p = (k, v) := by
  induction m with
  | nil =>
    simp only [mapSet, List.mem_singleton] at h
    exact Or.inr h
  | cons q rest ih =>
    unfold mapSet at h
    by_cases hq : q.1 = k
    · rw [if_pos hq] at h
      rcases List.mem_cons.mp h with h1 | h1
      · exact Or.inr h1
      · exact Or.inl (List.mem_cons_of_mem _ h1)
    · rw [if_neg hq] at h
      rcases List.mem_cons.mp h with h1 | h1
      · exact Or.inl (h1 ▸ List.mem_cons_self _ _)
      · rcases ih h1 with h2 | h2
        · exact Or.inl (List.mem_cons_of_mem _ h2)
        · exact Or.inr h2

theorem mapGet_mapSet_self (m : List (String × String)) (k v : String) :
    mapGet (mapSet m k v) k = some v := by
  induction m with
  | nil => simp [mapSet, mapGet]
  | cons q rest ih =>
    unfold mapSet
    by_cases hq : q.1 = k
    · rw [if_pos hq]
      unfold mapGet
      rw [if_pos rfl]
    · rw [if_neg hq]
      unfold mapGet
      rw [if_neg hq]
      exact ih

theorem mapGet_mapSet_other (m : List (String × String)) {k k' : String} (v : String)
    (h : k' ≠ k) : mapGet (mapSet m k v) k' = mapGet m k' := by
  have hkk : ¬ (k = k') := fun hh => h hh.symm
  induction m with
  | nil => simp [mapSet, mapGet, hkk]
  | cons q rest ih =>
    by_cases hq : q.1 = k
    · have hq' : ¬ (q.1 = k') := fun hh => h (hq ▸ hh).symm
      simp [mapSet, mapGet, hq, hkk, hq']
    · by_cases hq' : q.1 = k'
      · simp [mapSet, mapGet, hq, hq', h]
      · simp [mapSet, mapGet, hq, hq', ih]

/-! ## Helper lemmas: the exec passes -/

theorem mem_passStep {f : List Char → Option (String × String)} {norm : String → String}
    {m : List (String × String)} {line : List Char} {p : String × String}
    (h : p ∈ passStep f norm m line) :
    p ∈ m ∨ ∃ tok, f line = some (p.1, tok) ∧ p.2 = norm tok ∧
      norm tok ≠ "00:00:00:00:00:00" := by
  unfold passStep at h
  split at h
  case h_1 ip tok heq =>
    by_cases hz : norm tok = "00:00:00:00:00:00"
    · rw [if_pos hz] at h
      exact Or.inl h
    · rw [if_neg hz] at h
      rcases mem_mapSet h with h1 | h1
      · exact Or.inl h1
      · refine Or.inr ⟨tok, ?_, ?_, hz⟩
        · rw [heq, h1]
        · rw [h1]
  case h_2 => exact Or.inl h

theorem mem_runPass {f : List Char → Option (String × String)} {norm : String → String} :
    ∀ {lines : List (List Char)} {m : List (String × String)} {p : String × String},
    p ∈ runPass f norm lines m →
    p ∈ m ∨ ∃ line ∈ lines, ∃ tok, f line = some (p.1, tok) ∧ p.2 = norm tok ∧
      norm tok ≠ "00:00:00:00:00:00" := by
  intro lines
  induction lines with
  | nil => intro m p h; exact Or.inl h
  | cons line rest ih =>
    intro m p h
    have h' : p ∈ runPass f norm rest (passStep f norm m line) := h
    rcases ih h' with h1 | h1
    · rcases mem_passStep h1 with h2 | h2
      · exact Or.inl h2
      · rcases h2 with ⟨tok, ht⟩
        exact Or.inr ⟨line, List.mem_cons_self _ _, tok, ht⟩
    · rcases h1 with ⟨l2, hl2, tok, ht⟩
      exact Or.inr ⟨l2, List.mem_cons_of_mem _ hl2, tok, ht⟩

/-- Every entry of the parsed ARP map was produced, normalized and
    zero-filtered, by one of the two patterns on some line of the text. -/
theorem mem_parseArpOutput {text : String} {p : String × String}
    (h : p ∈ parseArpOutput text) :
    ∃ line ∈ splitOnChar '\n' text.data,
      (∃ tok, winLine line = some (p.1, tok) ∧ p.2 = normWin tok ∧
        normWin tok ≠ "00:00:00:00:00:00") ∨
      (∃ tok, unixLine line = some (p.1, tok) ∧ p.2 = normUnix tok ∧
        normUnix tok ≠ "00:00:00:00:00:00") := by
  unfold parseArpOutput at h
  rcases mem_runPass h with h1 | h1
  · rcases mem_runPass h1 with h2 | h2
    · exact absurd h2 (List.not_mem_nil p)
    · rcases h2 with ⟨line, hline, tok, ht⟩
      exact ⟨line, hline, Or.inl ⟨tok, ht⟩⟩
  · rcases h1 with ⟨line, hline, tok, ht⟩
    exact ⟨line, hline, Or.inr ⟨tok, ht⟩⟩

/-- The parsed map never holds the all-zero hardware address as a value. -/
theorem parse_no_zero_mac {text : String} {p : String × String}
    (h : p ∈ parseArpOutput text) : p.2 ≠ "00:00:00:00:00:00" := by
  rcases mem_parseArpOutput h with ⟨line, _, h1 | h1⟩ <;>
    rcases h1 with ⟨tok, _, he, hz⟩ <;> exact he ▸ hz

theorem mapGet_passStep (f : List Char → Option (String × String))
    (norm : String → String) (m : List (String × String)) (line : List Char)
    (k : String) :
    mapGet (passStep f norm m line) k
      = (lineProduces f norm k line).or (mapGet m k) := by
  unfold passStep lineProduces
  rcases hf : f line with _ | ⟨ip, tok⟩
  · simp
  · by_cases hz : norm tok = "00:00:00:00:00:00"
    · simp [hz]
    · by_cases hip : ip = k
      · subst hip
        simp [hz, mapGet_mapSet_self]
      · have hne : k ≠ ip := fun hh => hip hh.symm
        simp [hz, hip, mapGet_mapSet_other m (norm tok) hne]

theorem mapGet_runPass (f : List Char → Option (String × String))
    (norm : String → String) :
    ∀ (lines : List (List Char)) (m : List (String × String)) (k : String),
    mapGet (runPass f norm lines m) k
      = ((producedBy f norm k lines).getLast?).or (mapGet m k) := by
  intro lines
  induction lines with
  | nil => intro m k; simp [runPass, producedBy]
  | cons line rest ih =>
    intro m k
    have hstep : runPass f norm (line :: rest) m
        = runPass f norm rest (passStep f norm m line) := rfl
    rw [hstep, ih, mapGet_passStep]
    rcases hrest : (producedBy f norm k rest).getLast? with _ | v
    · -- the tail produced nothing for k: the head line decides
      have hre : producedBy f norm k rest = [] := by
        cases hr : producedBy f norm k rest with
        | nil => rfl
        | cons x xs => rw [hr] at hrest; simp [List.getLast?] at hrest
      rcases hl : lineProduces f norm k line with _ | w <;>
        simp [producedBy, hl, hre, List.getLast?]
    · -- the tail already produced a last value for k: it wins
      have hne : producedBy f norm k rest ≠ [] := by
        intro hcon
        rw [hcon] at hrest
        simp [List.getLast?] at hrest
      rcases hl : lineProduces f norm k line with _ | w
      · simp [producedBy, hl, hrest]
      · have : producedBy f norm k (line :: rest) = w :: producedBy f norm k rest := by
          simp [producedBy, hl]
        rw [this]
        rcases hr : producedBy f norm k rest with _ | ⟨x, xs⟩
        · exact absurd hr hne
        · rw [hr] at hrest
          rw [List.getLast?_cons_cons, hrest]
          simp

/-! ## Helper lemmas: hardware-address shapes -/

theorem normWinL_wf : ∀ l : List Char, isStdTokL l = true →
    wellFormedMacL (l.map (fun c => jsToUpperChar (if c = '-' then ':' else c))) = true
  | [], h => by simp [isStdTokL] at h
  | [_], h => by simp [isStdTokL] at h
  | [a, b], h => by
    simp only [isStdTokL, Bool.and_eq_true] at h
    obtain ⟨ha, hb⟩ := h
    simp only [List.map_cons, List.map_nil]
    rw [hex_ne_dash ha, hex_ne_dash hb]
    simp [wellFormedMacL, jsToUpperChar_hex ha, jsToUpperChar_hex hb]
  | a :: b :: s :: rest, h => by
    simp only [isStdTokL, Bool.and_eq_true] at h
    obtain ⟨⟨⟨ha, hb⟩, hs⟩, hrest⟩ := h
    have ih := normWinL_wf rest hrest
    simp only [List.map_cons]
    rw [hex_ne_dash ha, hex_ne_dash hb, sep_normalizes hs]
    simp [wellFormedMacL, jsToUpperChar_hex ha, jsToUpperChar_hex hb, ih]

theorem normUnixL_wf : ∀ l : List Char, isStdTokL l = true →
    l.all isMacCharUnix = true → wellFormedMacL (l.map jsToUpperChar) = true
  | [], h, _ => by simp [isStdTokL] at h
  | [_], h, _ => by simp [isStdTokL] at h
  | [a, b], h, _ => by
    simp only [isStdTokL, Bool.and_eq_true] at h
    obtain ⟨ha, hb⟩ := h
    simp [wellFormedMacL, List.map_cons, jsToUpperChar_hex ha, jsToUpperChar_hex hb]
  | a :: b :: s :: rest, h, hc => by
    simp only [isStdTokL, Bool.and_eq_true] at h
    obtain ⟨⟨⟨ha, hb⟩, hs⟩, hrest⟩ := h
    simp only [List.all_cons, Bool.and_eq_true] at hc
    obtain ⟨_, _, hsc, hcrest⟩ := hc
    have hcol : s = ':' := sep_unix_colon hs hsc
    subst hcol
    have ih := normUnixL_wf rest hrest (by
      simp only [List.all_eq_true] at hcrest ⊢
      exact hcrest)
    have hid : jsToUpperChar ':' = ':' := by decide
    simp [List.map_cons, wellFormedMacL, jsToUpperChar_hex ha, jsToUpperChar_hex hb, hid, ih]

theorem chunk2_ne_nil {l : List Char} (h : l ≠ []) : chunk2 l ≠ [] := by
  match l with
  | [] => exact absurd rfl h
  | [a] => simp [chunk2]
  | a :: b :: rest => simp [chunk2]

theorem formatMacL : ∀ l : List Char, wellFormedMacL l = true →
    (l.filter (fun c => c != ':')).map jsToUpperChar ≠ [] ∧
    joinColon (chunk2 ((l.filter (fun c => c != ':')).map jsToUpperChar)) = l
  | [], h => by simp [wellFormedMacL] at h
  | [_], h => by simp [wellFormedMacL] at h
  | [a, b], h => by
    simp only [wellFormedMacL, Bool.and_eq_true] at h
    obtain ⟨ha, hb⟩ := h
    obtain ⟨hua, hane⟩ := upperHex_facts ha
    obtain ⟨hub, hbne⟩ := upperHex_facts hb
    simp [List.filter_cons, hane, hbne, hua, hub, chunk2, joinColon]
  | a :: b :: s :: rest, h => by
    simp only [wellFormedMacL, Bool.and_eq_true, decide_eq_true_eq] at h
    obtain ⟨⟨⟨ha, hb⟩, hs⟩, hrest⟩ := h
    subst hs
    obtain ⟨hua, hane⟩ := upperHex_facts ha
    obtain ⟨hub, hbne⟩ := upperHex_facts hb
    obtain ⟨ihne, iheq⟩ := formatMacL rest hrest
    have hfc : (((a :: b :: ':' :: rest).filter (fun c => c != ':')).map jsToUpperChar)
        = a :: b :: ((rest.filter (fun c => c != ':')).map jsToUpperChar) := by
      simp [List.filter_cons, hane, hbne, hua, hub]
    rw [hfc]
    refine ⟨by simp, ?_⟩
    rcases hcase : (rest.filter (fun c => c != ':')).map jsToUpperChar with _ | ⟨x, xs⟩
    · exact absurd hcase ihne
    · rw [hcase] at iheq
      have hch : chunk2 (a :: b :: x :: xs) = [a, b] :: chunk2 (x :: xs) := by
        simp [chunk2]
      rw [hch]
      have hcne : chunk2 (x :: xs) ≠ [] := chunk2_ne_nil (by simp)
      rcases hc2 : chunk2 (x :: xs) with _ | ⟨g, gs⟩
      · exact absurd hc2 hcne
      · rw [hc2] at iheq
        simp only [joinColon]
        rw [iheq]
        rfl

/-- A well-formed address round-trips through the strip, uppercase and
    regroup steps of `enrichDevices`/`formatMac`. -/
theorem formatMac_wf {v : String} (h : wellFormedMac v = true) :
    formatMac (jsToUpper (stripColons v)) = v := by
  obtain ⟨l⟩ := v
  unfold wellFormedMac at h
  simp only [Bool.and_eq_true] at h
  obtain ⟨_, hstr⟩ := h
  have heq := (formatMacL l hstr).2
  show String.mk (joinColon (chunk2 ((l.filter (fun c => c != ':')).map jsToUpperChar)))
    = String.mk l
  rw [heq]

/-- The Windows normalization of a standard token is a well-formed address. -/
theorem normWin_wf {tok : String} (h : isStdTok tok = true) :
    wellFormedMac (normWin tok) = true := by
  obtain ⟨l⟩ := tok
  unfold isStdTok at h
  simp only [Bool.and_eq_true, decide_eq_true_eq] at h
  obtain ⟨hlen, hstr⟩ := h
  unfold wellFormedMac normWin jsToUpper replaceDashColon
  simp only [Bool.and_eq_true, decide_eq_true_eq]
  constructor
  · simp [hlen]
  · show wellFormedMacL (((l.map fun c => if c = '-' then ':' else c).map jsToUpperChar)) = true
    rw [List.map_map]
    exact normWinL_wf l hstr

/-- The Unix normalization of a standard colon-class token is a well-formed
    address. -/
theorem normUnix_wf {tok : String} (h : isStdTok tok = true)
    (hc : tok.data.all isMacCharUnix = true) :
    wellFormedMac (normUnix tok) = true := by
  obtain ⟨l⟩ := tok
  unfold isStdTok at h
  simp only [Bool.and_eq_true, decide_eq_true_eq] at h
  obtain ⟨hlen, hstr⟩ := h
  unfold wellFormedMac normUnix jsToUpper
  simp only [Bool.and_eq_true, decide_eq_true_eq]
  exact ⟨by simp [hlen], normUnixL_wf l hstr hc⟩

/-! ## Helper lemmas: matcher inversion -/

theorem match17_inv {p : Char → Bool} {l tok : List Char}
    (h : match17 p l = some tok) : tok.length = 17 ∧ tok.all p = true := by
  by_cases hc : (l.take 17).length = 17 ∧ (l.take 17).all p = true
  · have he : match17 p l = some (l.take 17) := by
      unfold match17
      exact if_pos hc
    rw [he] at h
    injection h with h'
    subst h'
    exact hc
  · have he : match17 p l = none := by
      unfold match17
      exact if_neg hc
    rw [he] at h
    cases h

theorem unixLine_inv {line : List Char} {ip tok : String}
    (h : unixLine line = some (ip, tok)) : tok.data.all isMacCharUnix = true := by
  unfold unixLine at h
  split at h
  · cases h
  · split at h
    · cases h
    · split at h
      · cases h
      · split at h
        · cases h
        · split at h
          · cases h
          · rename_i tokL h5
            injection h with h
            have ht : tok = String.mk tokL := (congrArg Prod.snd h).symm
            subst ht
            exact (match17_inv h5).2

/-! ## Helper lemmas: filtering and enrichment -/

theorem mem_filterSubnetDevices {cache : List (String × String)} {addr mask : String}
    {p : String × String} :
    p ∈ filterSubnetDevices cache addr mask ↔
      p ∈ cache ∧ Nat.land (ipToNumber p.1) (ipToNumber mask)
        = Nat.land (ipToNumber addr) (ipToNumber mask) := by
  unfold filterSubnetDevices
  rw [List.mem_filter]
  simp

theorem mem_scan {env : ScanEnv} {opts : ScanOptions} {d : NetworkDevice}
    (h : d ∈ scan env opts) : ∃ i ∈ env.interfaces, d ∈ scanIface env opts i := by
  unfold scan at h
  rcases List.mem_flatten.mp h with ⟨l, hl, hd⟩
  rcases List.mem_map.mp hl with ⟨i, hi, rfl⟩
  exact ⟨i, hi, hd⟩

theorem mem_scanIface {env : ScanEnv} {opts : ScanOptions} {i : Iface}
    {d : NetworkDevice} (h : d ∈ scanIface env opts i) :
    (∀ f, opts.interfaceFilter = some f → f = "" ∨ i.name = f) ∧
    i.family = "IPv4" ∧
    ∃ p ∈ filterSubnetDevices (getArpCache env) i.address i.netmask,
      d = enrichOne env.ouiDb env.nameEnv i.name p := by
  unfold scanIface at h
  split at h
  · exact absurd h (List.not_mem_nil d)
  · rename_i hfil
    split at h
    · exact absurd h (List.not_mem_nil d)
    · rename_i hfam
      by_cases hc1 : (getArpCache env).length = 0
      · rw [if_pos hc1] at h
        exact absurd h (List.not_mem_nil d)
      · rw [if_neg hc1] at h
        by_cases hc2 :
            (filterSubnetDevices (getArpCache env) i.address i.netmask).length = 0
        · rw [if_pos hc2] at h
          exact absurd h (List.not_mem_nil d)
        · rw [if_neg hc2] at h
          refine ⟨?_, ?_, ?_⟩
          · intro f hf
            rw [hf] at hfil
            simp only [Bool.and_eq_true, bne_iff_ne, ne_eq, not_and, not_not] at hfil
            by_cases hfe : f = ""
            · exact Or.inl hfe
            · exact Or.inr (hfil hfe)
          · simp only [bne_iff_ne, ne_eq, not_not] at hfam
            exact hfam
          · rcases List.mem_map.mp h with ⟨p, hp, rfl⟩
            exact ⟨p, hp, rfl⟩

theorem scanIface_skip_filter {env : ScanEnv} {opts : ScanOptions} {i : Iface}
    {f : String} (hf : opts.interfaceFilter = some f) (hfe : f ≠ "")
    (hne : i.name ≠ f) : scanIface env opts i = [] := by
  have hcond : (match opts.interfaceFilter with
      | some f => f != "" && i.name != f
      | none => false) = true := by
    rw [hf]
    simp [hfe, hne]
  unfold scanIface
  rw [if_pos hcond]

theorem scanIface_empty_cache {env : ScanEnv} {opts : ScanOptions} {i : Iface}
    (h : getArpCache env = []) : scanIface env opts i = [] := by
  unfold scanIface
  split
  · rfl
  · split
    · rfl
    · rw [h]
      simp

theorem scan_eq_nil_of_forall {env : ScanEnv} {opts : ScanOptions}
    (h : ∀ i ∈ env.interfaces, scanIface env opts i = []) : scan env opts = [] := by
  unfold scan
  rw [List.flatten_eq_nil_iff]
  intro l hl
  rcases List.mem_map.mp hl with ⟨i, hi, rfl⟩
  exact h i hi

/-! ## Helper lemmas: the address range generator -/

theorem foldl_ip_lt : ∀ (parts : List (List Char)) (acc : Nat), acc < 2 ^ 32 →
    parts.foldl (fun acc oct => Nat.lor (u32 (acc <<< 8)) (u32 (jsParseIntNat oct))) acc
      < 2 ^ 32
  | [], _, h => h
  | _ :: rest, acc, _ =>
    foldl_ip_lt rest _
      (Nat.or_lt_two_pow (Nat.mod_lt _ (by norm_num)) (Nat.mod_lt _ (by norm_num)))

theorem ipToNumber_lt (ip : String) : ipToNumber ip < 2 ^ 32 :=
  foldl_ip_lt _ 0 (by norm_num)

theorem sInt_low {n : Nat} (h1 : n < 2 ^ 32) (h2 : n < 2 ^ 31) : sInt n = (n : Int) := by
  unfold sInt
  rw [Nat.mod_eq_of_lt h1, if_pos h2]

theorem sInt_high {n : Nat} (h1 : n < 2 ^ 32) (h2 : ¬ n < 2 ^ 31) :
    sInt n = (n : Int) - 2 ^ 32 := by
  unfold sInt
  rw [Nat.mod_eq_of_lt h1, if_neg h2]

/-- On any netmask with its top bit set (every prefix length ≥ 1), the signed
    loop of `calculateSubnet` agrees with the unsigned reading: it yields the
    dotted-quad form of every 32-bit integer strictly between network and
    broadcast, in increasing order. -/
theorem calculateSubnet_eq (ip mask : String) (hm : 2 ^ 31 ≤ ipToNumber mask) :
    calculateSubnet ip mask
      = (List.range' (specNetwork ip mask + 1)
          (specBroadcast ip mask - specNetwork ip mask - 1)).map u32ToIp := by
  have hmlt : ipToNumber mask < 2 ^ 32 := ipToNumber_lt mask
  have hN32 : specNetwork ip mask < 2 ^ 32 :=
    Nat.lt_of_le_of_lt Nat.and_le_right hmlt
  have hnot32 : notU32 (ipToNumber mask) < 2 ^ 31 := by
    unfold notU32
    rw [Nat.mod_eq_of_lt hmlt]
    omega
  have hB32 : specBroadcast ip mask < 2 ^ 32 :=
    Nat.or_lt_two_pow hN32 (by omega)
  have hNB : specNetwork ip mask ≤ specBroadcast ip mask := le_or_self _ _
  show (List.range ((sInt (specBroadcast ip mask) - sInt (specNetwork ip mask) - 1).toNat)).map
      (fun (i : Nat) =>
        u32ToIp (((sInt (specNetwork ip mask) + 1 + (i : Int)) % (2 ^ 32 : Int)).toNat))
    = (List.range' (specNetwork ip mask + 1)
        (specBroadcast ip mask - specNetwork ip mask - 1)).map u32ToIp
  set N := specNetwork ip mask with hNdef
  set B := specBroadcast ip mask with hBdef
  by_cases hsign : N < 2 ^ 31
  · have hBlt : B < 2 ^ 31 := Nat.or_lt_two_pow hsign hnot32
    rw [sInt_low hN32 hsign, sInt_low hB32 hBlt]
    have hcount : ((B : Int) - (N : Int) - 1).toNat = B - N - 1 := by omega
    rw [hcount]
    have helem : ∀ i ∈ List.range (B - N - 1),
        u32ToIp ((((N : Int) + 1 + (i : Int)) % (2 ^ 32 : Int)).toNat) = u32ToIp (N + 1 + i) := by
      intro i hi
      rw [List.mem_range] at hi
      congr 1
      omega
    rw [List.map_congr_left helem, List.range'_eq_map_range, List.map_map]
    rfl
  · have hBge : ¬ B < 2 ^ 31 := fun hcon => hsign (Nat.lt_of_le_of_lt hNB hcon)
    rw [sInt_high hN32 hsign, sInt_high hB32 hBge]
    have hcount : (((B : Int) - 2 ^ 32) - ((N : Int) - 2 ^ 32) - 1).toNat = B - N - 1 := by
      omega
    rw [hcount]
    have helem : ∀ i ∈ List.range (B - N - 1),
        u32ToIp (((((N : Int) - 2 ^ 32) + 1 + (i : Int)) % (2 ^ 32 : Int)).toNat)
          = u32ToIp (N + 1 + i) := by
      intro i hi
      rw [List.mem_range] at hi
      congr 1
      omega
    rw [List.map_congr_left helem, List.range'_eq_map_range, List.map_map]
    rfl

/-! ## Helper lemmas: prober batching -/

theorem toBatches_flatten {α : Type} : ∀ l : List α, (toBatches l).flatten = l
  | [] => by simp [toBatches]
  | x :: rest => by
    rw [toBatches]
    simp only [List.flatten_cons]
    rw [toBatches_flatten ((x :: rest).drop 50)]
    exact List.take_append_drop 50 (x :: rest)
termination_by l => l.length
decreasing_by simp [List.length_drop]; omega

theorem toBatches_size {α : Type} : ∀ (l : List α) (w : List α),
    w ∈ toBatches l → w.length ≤ 50
  | [], w, h => by simp [toBatches] at h
  | x :: rest, w, h => by
    rw [toBatches] at h
    rcases List.mem_cons.mp h with h1 | h1
    · subst h1
      exact List.length_take_le 50 (x :: rest)
    · exact toBatches_size ((x :: rest).drop 50) w h1
termination_by l => l.length
decreasing_by simp [List.length_drop]; omega

/-! ## Helper lemmas: degenerate netmasks -/

theorem calculateSubnet_count_zero {ip mask : String}
    (h : (sInt (specBroadcast ip mask) - sInt (specNetwork ip mask) - 1).toNat = 0) :
    calculateSubnet ip mask = [] := by
  show (List.range ((sInt (specBroadcast ip mask) - sInt (specNetwork ip mask) - 1).toNat)).map
      (fun (i : Nat) =>
        u32ToIp (((sInt (specNetwork ip mask) + 1 + (i : Int)) % (2 ^ 32 : Int)).toNat)) = []
  rw [h]
  simp

theorem calc_slash32 (ip : String) : calculateSubnet ip "255.255.255.255" = [] := by
  apply calculateSubnet_count_zero
  have hnot : notU32 (ipToNumber "255.255.255.255") = 0 := by decide
  unfold specBroadcast
  rw [hnot,
    show (specNetwork ip "255.255.255.255").lor 0 = specNetwork ip "255.255.255.255" from
      Nat.or_zero _]
  omega

theorem calc_slash31 (ip : String) : calculateSubnet ip "255.255.255.254" = [] := by
  apply calculateSubnet_count_zero
  have hnot : notU32 (ipToNumber "255.255.255.254") = 1 := by decide
  have hm32 : ipToNumber "255.255.255.254" < 2 ^ 32 := ipToNumber_lt _
  have hN32 : specNetwork ip "255.255.255.254" < 2 ^ 32 :=
    Nat.lt_of_le_of_lt Nat.and_le_right hm32
  have hB32 : specBroadcast ip "255.255.255.254" < 2 ^ 32 := by
    unfold specBroadcast
    rw [hnot]
    exact Nat.or_lt_two_pow hN32 (by norm_num)
  have hNB : specNetwork ip "255.255.255.254" ≤ specBroadcast ip "255.255.255.254" :=
    le_or_self _ _
  have hBle : specBroadcast ip "255.255.255.254" ≤ specNetwork ip "255.255.255.254" + 1 := by
    unfold specBroadcast
    rw [hnot]
    exact or_le_add _ 1
  by_cases h1 : specNetwork ip "255.255.255.254" < 2 ^ 31 <;>
    by_cases h2 : specBroadcast ip "255.255.255.254" < 2 ^ 31
  · rw [sInt_low hN32 h1, sInt_low hB32 h2]
    omega
  · rw [sInt_low hN32 h1, sInt_high hB32 h2]
    omega
  · omega
  · rw [sInt_high hN32 h1, sInt_high hB32 h2]
    omega

/-! ## Claim theorems -/

/-- C1: the claimed chain stops at the first non-empty, non-"Unknown" result,
    so when only the reverse-DNS PTR lookup succeeds with "host.example.com."
    the final name is "host.example.com". The code's JS or-chain instead
    short-circuits on `getDeviceName`'s truthy "Unknown", never running mDNS,
    NetBIOS or reverse DNS (third conjunct), and returns "Unknown" at the C1
    scenario, contradicting the fallback chain the code's own comments and
    README document. -/
theorem c1_chain_short_circuits :
    resolveNameChain envC1 = "Unknown" ∧
    specResolveName envC1 = "host.example.com" ∧
    (∀ e : NameEnv, resolveNameChain e = getDeviceName e) :=
  ⟨by decide, by decide, resolveNameChain_eq_getDeviceName⟩

/-- C4: the neighbor-cache parser turns the Windows-style line into
    ("192.168.1.10","AA:BB:CC:DD:EE:FF"), the Unix-style "ether" line into
    ("192.168.1.20","A1:B2:C3:D4:E5:F6"), drops the all-zero line, and for
    every input text no entry with the all-zero normalized address appears in
    the result map. -/
theorem c4_parser_examples_and_zero_discard :
    parseArpOutput "junk line\n192.168.1.10   aa-bb-cc-dd-ee-ff\nmore junk"
      = [("192.168.1.10", "AA:BB:CC:DD:EE:FF")] ∧
    parseArpOutput "192.168.1.20 ether a1:b2:c3:d4:e5:f6"
      = [("192.168.1.20", "A1:B2:C3:D4:E5:F6")] ∧
    parseArpOutput "192.168.1.10   00-00-00-00-00-00" = [] ∧
    (∀ text : String,
      (parseArpOutput text).all (fun p => p.2 != "00:00:00:00:00:00") = true) := by
  refine ⟨by decide, by decide, by decide, ?_⟩
  intro text
  rw [List.all_eq_true]
  intro p hp
  simp only [bne_iff_ne, ne_eq]
  exact parse_no_zero_mac hp

/-- C5: the subnet membership filter retains exactly the entries with
    `(ip & mask) == (interfaceAddress & mask)` (a pure, deterministic, total
    function of its arguments), keeps 10.0.0.5 for interface
    10.0.0.1/255.255.255.0 and drops 10.0.1.5. -/
theorem c5_subnet_filter :
    (∀ (cache : List (String × String)) (addr mask : String) (p : String × String),
      p ∈ filterSubnetDevices cache addr mask ↔
        p ∈ cache ∧ Nat.land (ipToNumber p.1) (ipToNumber mask)
          = Nat.land (ipToNumber addr) (ipToNumber mask)) ∧
    filterSubnetDevices
        [("10.0.0.5", "AA:AA:AA:AA:AA:AA"), ("10.0.1.5", "BB:BB:BB:BB:BB:BB")]
        "10.0.0.1" "255.255.255.0"
      = [("10.0.0.5", "AA:AA:AA:AA:AA:AA")] :=
  ⟨fun _ _ _ _ => mem_filterSubnetDevices, by decide⟩

/-- C6 counterexample: the code strips only colons, not all separators, so
    for the hyphen-separated address the lookup key is "AA-BB-" and the
    claimed key AABBCC (first 6 hex digits with separators stripped) is never
    consulted: the code answers "Unknown" where the claim demands
    "Acme Corp". -/
theorem c6_counterexample :
    vendorFor [("AABBCC", "Acme Corp")] "AA-BB-CC-11-22-33" = "Unknown" ∧
    specVendorResolve [("AABBCC", "Acme Corp")] "AA-BB-CC-11-22-33" = "Acme Corp" :=
  ⟨by decide, by decide⟩

/-- C6 amended: the key is the first 6 characters of the address with colons
    removed and uppercased; a hit with a non-empty organization name yields
    that name, a miss (or a JS-falsy empty name) yields "Unknown", never an
    error; the two concrete examples behave as claimed. -/
theorem c6_vendor_amended :
    (∀ (db : List (String × String)) (mac v : String),
      mapGet db (ouiOf mac) = some v → v ≠ "" → vendorFor db mac = v) ∧
    (∀ (db : List (String × String)) (mac : String),
      mapGet db (ouiOf mac) = none → vendorFor db mac = "Unknown") ∧
    vendorFor [("AABBCC", "Acme Corp")] "AA:BB:CC:11:22:33" = "Acme Corp" ∧
    vendorFor [("AABBCC", "Acme Corp")] "FF:FF:FF:00:00:00" = "Unknown" := by
  refine ⟨?_, ?_, by decide, by decide⟩
  · intro db mac v hv hne
    unfold vendorFor
    rw [hv]
    simp [jsOrS, hne]
  · intro db mac hv
    unfold vendorFor
    rw [hv]

theorem c6_vendor_amended_witness :
    mapGet [("AABBCC", "Acme Corp")] (ouiOf "AA:BB:CC:11:22:33") = some "Acme Corp" ∧
    vendorFor [("AABBCC", "Acme Corp")] "AA:BB:CC:11:22:33" = "Acme Corp" :=
  ⟨by decide,
    c6_vendor_amended.1 [("AABBCC", "Acme Corp")] "AA:BB:CC:11:22:33" "Acme Corp"
      (by decide) (by decide)⟩

/-- C8: parsing is total; the two patterns merge into one map keyed by IP
    with the last writer winning (the Unix pass runs second, and within a
    pass the last matching line wins), characterised exactly by the final
    lookup equation; unparseable input yields the empty map; and the
    concrete both-patterns-same-IP text merges without error, the later
    (Unix) value surviving. -/
theorem c8_parser_total_merge :
    (∀ (text k : String),
      mapGet (parseArpOutput text) k
        = ((unixProduced text k).getLast?).or ((winProduced text k).getLast?)) ∧
    parseArpOutput "complete garbage !!" = [] ∧
    parseArpOutput "1.2.3.4   aa-aa-aa-aa-aa-aa\n1.2.3.4 ether bb:bb:bb:bb:bb:bb"
      = [("1.2.3.4", "BB:BB:BB:BB:BB:BB")] := by
  refine ⟨?_, by decide, by decide⟩
  intro text k
  unfold parseArpOutput winProduced unixProduced
  rw [mapGet_runPass, mapGet_runPass]
  simp [mapGet, Option.or_none]

/-- C9: the prober issues probes in windows of at most 50; the settled trace
    is exactly the candidate sequence in order, partitioned into windows that
    each drain fully before the next is admitted (the trace of window N + 1
    follows every outcome of window N); every probe settles (failures are
    swallowed into the trace) for every outcome assignment. -/
theorem c9_prober_windows (probe : String → ProbeOutcome) (ip netmask : String) :
    ((pingSubnet probe ip netmask).all (fun w => w.length ≤ 50)) = true ∧
    (pingSubnet probe ip netmask).flatten = (calculateSubnet ip netmask).map probe ∧
    (toBatches (calculateSubnet ip netmask)).flatten = calculateSubnet ip netmask := by
  refine ⟨?_, ?_, toBatches_flatten _⟩
  · rw [List.all_eq_true]
    intro w hw
    rcases List.mem_map.mp hw with ⟨w0, hw0, rfl⟩
    simp only [List.length_map, decide_eq_true_eq]
    exact toBatches_size _ w0 hw0
  · unfold pingSubnet
    rw [← List.map_flatten, toBatches_flatten]

/-- C2 counterexample: the Windows pattern accepts any 17 characters of
    hex, colon or dash, so the raw text `1.2.3.4 000000000000:::::`
    normalizes to a value that passes the zero check, yet after the strip
    and regroup of enrichment the emitted device carries the all-zero
    hardware address — refuting "never the all-zero address" over all raw
    ARP texts. -/
theorem c2_counterexample :
    (scan envZeroTok ⟨none, none⟩).map (fun d => d.mac) = ["00:00:00:00:00:00"] := by
  decide

/-- C2 amended: every device in the scan output lies in the subnet of the
    IPv4 interface it was found on, for every raw ARP text and interface
    address/netmask; and whenever every matched hardware-address token of the
    raw text is a standard 6-octet token (hex pairs with single `:` or `-`
    separators), every device's hardware address is a well-formed 6-octet
    uppercase colon-separated string and never all-zero. -/
theorem c2_amended (env : ScanEnv) (opts : ScanOptions) (d : NetworkDevice)
    (hd : d ∈ scan env opts) :
    (∃ i ∈ env.interfaces, d.interface = i.name ∧ i.family = "IPv4" ∧
      Nat.land (ipToNumber d.ip) (ipToNumber i.netmask)
        = Nat.land (ipToNumber i.address) (ipToNumber i.netmask)) ∧
    ((∀ text, env.arpOutput = some text → allToksStd text = true) →
      wellFormedMac d.mac = true ∧ d.mac ≠ "00:00:00:00:00:00") := by
  obtain ⟨i, hi, hsc⟩ := mem_scan hd
  obtain ⟨_, hfam, p, hp, rfl⟩ := mem_scanIface hsc
  constructor
  · exact ⟨i, hi, rfl, hfam, (mem_filterSubnetDevices.mp hp).2⟩
  · intro hstd
    have hpc : p ∈ getArpCache env := (mem_filterSubnetDevices.mp hp).1
    rcases harp : env.arpOutput with _ | text
    · simp only [getArpCache, harp] at hpc
      exact absurd hpc (List.not_mem_nil p)
    · simp only [getArpCache, harp] at hpc
      have hstdt : allToksStd text = true := hstd text harp
      obtain ⟨line, hline, hcase⟩ := mem_parseArpOutput hpc
      have hall : lineToksStd line = true :=
        (List.all_eq_true.mp hstdt) line hline
      unfold lineToksStd at hall
      simp only [Bool.and_eq_true] at hall
      have hgood : wellFormedMac p.2 = true ∧ p.2 ≠ "00:00:00:00:00:00" := by
        rcases hcase with ⟨tok, hwin, hval, hz⟩ | ⟨tok, hunix, hval, hz⟩
        · have htokstd : isStdTok tok = true := by
            have h1 := hall.1
            rw [hwin] at h1
            exact h1
          refine ⟨?_, ?_⟩
          · rw [hval]
            exact normWin_wf htokstd
          · rw [hval]
            exact hz
        · have htokstd : isStdTok tok = true := by
            have h2 := hall.2
            rw [hunix] at h2
            exact h2
          refine ⟨?_, ?_⟩
          · rw [hval]
            exact normUnix_wf htokstd (unixLine_inv hunix)
          · rw [hval]
            exact hz
      obtain ⟨hwf, hz⟩ := hgood
      constructor
      · show wellFormedMac (formatMac (jsToUpper (stripColons p.2))) = true
        rw [formatMac_wf hwf]
        exact hwf
      · show formatMac (jsToUpper (stripColons p.2)) ≠ "00:00:00:00:00:00"
        rw [formatMac_wf hwf]
        exact hz

theorem c2_amended_witness :
    devPlain ∈ scan envPlain ⟨none, none⟩ ∧
    (∃ i ∈ envPlain.interfaces, devPlain.interface = i.name ∧ i.family = "IPv4" ∧
      Nat.land (ipToNumber devPlain.ip) (ipToNumber i.netmask)
        = Nat.land (ipToNumber i.address) (ipToNumber i.netmask)) ∧
    wellFormedMac devPlain.mac = true ∧ devPlain.mac ≠ "00:00:00:00:00:00" := by
  have hmem : devPlain ∈ scan envPlain ⟨none, none⟩ := by decide
  have h := c2_amended envPlain ⟨none, none⟩ devPlain hmem
  refine ⟨hmem, h.1, h.2 ?_⟩
  intro text htext
  injection htext with htext
  subst htext
  decide

set_option maxRecDepth 16384 in
/-- C3 counterexample: (a) the claimed /24 count is wrong: the loop yields
    every host from .1 through .254, i.e. 254 candidates, not 253; (b) for
    the /0 netmask 0.0.0.0 the claim demands the dotted-quad of every
    integer strictly between network 0 and broadcast 4294967295 (e.g.
    1 ↦ "0.0.0.1"), but the signed 32-bit loop bound makes the generator
    yield nothing at all. -/
theorem c3_counterexample :
    (calculateSubnet "192.168.1.1" "255.255.255.0").length = 254 ∧
    specNetwork "10.0.0.1" "0.0.0.0" = 0 ∧
    specBroadcast "10.0.0.1" "0.0.0.0" = 4294967295 ∧
    u32ToIp 1 = "0.0.0.1" ∧
    calculateSubnet "10.0.0.1" "0.0.0.0" = [] :=
  ⟨by decide, by decide, by decide, by decide, by decide⟩

set_option maxRecDepth 16384 in
/-- C3 amended: for every interface address and every netmask with its top
    bit set (any prefix length ≥ 1; rules out the /0 mask, where the signed
    loop yields nothing), the generator yields exactly the dotted-quad forms
    of the integers strictly between network and broadcast, in order; the
    /24 network 192.168.1.0 yields exactly 254 candidates from 192.168.1.1
    to 192.168.1.254, excluding the network and broadcast addresses; /31 and
    /32 masks yield zero candidates, a valid outcome. -/
theorem c3_amended :
    (∀ ip mask : String, 2 ^ 31 ≤ ipToNumber mask →
      calculateSubnet ip mask
        = (List.range' (specNetwork ip mask + 1)
            (specBroadcast ip mask - specNetwork ip mask - 1)).map u32ToIp) ∧
    (calculateSubnet "192.168.1.1" "255.255.255.0").length = 254 ∧
    (calculateSubnet "192.168.1.1" "255.255.255.0").head? = some "192.168.1.1" ∧
    (calculateSubnet "192.168.1.1" "255.255.255.0").getLast? = some "192.168.1.254" ∧
    "192.168.1.0" ∉ calculateSubnet "192.168.1.1" "255.255.255.0" ∧
    "192.168.1.255" ∉ calculateSubnet "192.168.1.1" "255.255.255.0" ∧
    (∀ ip : String, calculateSubnet ip "255.255.255.255" = []
      ∧ calculateSubnet ip "255.255.255.254" = []) :=
  ⟨calculateSubnet_eq, by decide, by decide, by decide, by decide, by decide,
    fun ip => ⟨calc_slash32 ip, calc_slash31 ip⟩⟩

theorem c3_amended_witness :
    2 ^ 31 ≤ ipToNumber "255.255.255.254" ∧
    calculateSubnet "10.0.0.1" "255.255.255.254"
      = (List.range' (specNetwork "10.0.0.1" "255.255.255.254" + 1)
          (specBroadcast "10.0.0.1" "255.255.255.254"
            - specNetwork "10.0.0.1" "255.255.255.254" - 1)).map u32ToIp :=
  ⟨by decide, c3_amended.1 "10.0.0.1" "255.255.255.254" (by decide)⟩

/-- C7 counterexample: with the configured filter "" — a string matched by
    no interface, since the only interface is named "eth0" — the claim
    demands an empty result, but the code treats the falsy empty filter as
    absent and still returns one device. -/
theorem c7_counterexample :
    (envPlain.interfaces.all (fun i => i.name != "")) = true ∧
    (scan envPlain ⟨some "", none⟩).length = 1 :=
  ⟨by decide, by decide⟩

/-- C7 amended: scan returns the empty array (and, being a total function,
    never throws) when the configured filter is a non-empty string matched
    by no interface (the empty-string filter is treated by the code as no
    filter), when the neighbor-table command cannot be launched
    (`arpOutput = none`), or when no probes succeed so the neighbor cache
    parses empty — each such interface contributes zero devices and the scan
    continues. -/
theorem c7_amended :
    (∀ (env : ScanEnv) (opts : ScanOptions) (f : String),
      opts.interfaceFilter = some f → f ≠ "" →
      (∀ i ∈ env.interfaces, i.name ≠ f) → scan env opts = []) ∧
    (∀ (env : ScanEnv) (opts : ScanOptions),
      env.arpOutput = none → scan env opts = []) ∧
    (∀ (env : ScanEnv) (opts : ScanOptions) (text : String),
      env.arpOutput = some text → parseArpOutput text = [] → scan env opts = []) := by
  refine ⟨?_, ?_, ?_⟩
  · intro env opts f hf hfe hno
    exact scan_eq_nil_of_forall (fun i hi => scanIface_skip_filter hf hfe (hno i hi))
  · intro env opts harp
    refine scan_eq_nil_of_forall (fun i _ => scanIface_empty_cache ?_)
    simp [getArpCache, harp]
  · intro env opts text harp hparse
    refine scan_eq_nil_of_forall (fun i _ => scanIface_empty_cache ?_)
    simp [getArpCache, harp, hparse]

theorem c7_amended_witness :
    envArpFail.arpOutput = none ∧ scan envArpFail ⟨none, none⟩ = [] :=
  ⟨rfl, c7_amended.2.1 envArpFail ⟨none, none⟩ rfl⟩

/-- C10 counterexample: with interfaceFilter "" every returned device's
    interface field should equal "", but the code ignores the falsy filter
    and the returned device carries "eth0". -/
theorem c10_counterexample :
    (scan envPlain ⟨some "", none⟩).map (fun d => d.interface) = ["eth0"] ∧
    "eth0" ≠ "" :=
  ⟨by decide, by decide⟩

/-- C10 amended: for every non-empty interfaceFilter f, every returned
    device's interface field equals f (the empty-string filter is treated by
    the code as unfiltered); in general every returned device's interface
    field is the name of the IPv4 interface whose neighbor-cache pass
    produced it. -/
theorem c10_amended :
    (∀ (env : ScanEnv) (opts : ScanOptions) (f : String) (d : NetworkDevice),
      opts.interfaceFilter = some f → f ≠ "" → d ∈ scan env opts →
      d.interface = f) ∧
    (∀ (env : ScanEnv) (opts : ScanOptions) (d : NetworkDevice),
      d ∈ scan env opts →
      ∃ i ∈ env.interfaces, i.family = "IPv4" ∧ d.interface = i.name) := by
  constructor
  · intro env opts f d hf hfe hd
    obtain ⟨i, hi, hsc⟩ := mem_scan hd
    obtain ⟨hfil, _, p, _, rfl⟩ := mem_scanIface hsc
    rcases hfil f hf with h1 | h1
    · exact absurd h1 hfe
    · exact h1
  · intro env opts d hd
    obtain ⟨i, hi, hsc⟩ := mem_scan hd
    obtain ⟨_, hfam, p, _, rfl⟩ := mem_scanIface hsc
    exact ⟨i, hi, hfam, rfl⟩

theorem c10_amended_witness :
    devPlain ∈ scan envPlain ⟨some "eth0", none⟩ ∧ devPlain.interface = "eth0" := by
  have hmem : devPlain ∈ scan envPlain ⟨some "eth0", none⟩ := by decide
  exact ⟨hmem,
    c10_amended.1 envPlain ⟨some "eth0", none⟩ "eth0" devPlain rfl (by decide) hmem⟩

end NetworkScanner
